import Mathlib

/-!
Galley runtime state of one Mixer instance.

A shallow embedding of `galley/pkg/runtime/state/mixer.go`: the per-destination
state `Mixer`, its fragment store (a Go map from `resource.Key` to
`*mixerFragmentSet`), the two mutators `applyProducerService` and
`removeProducerService`, the two readers `GenerateManifest` and
`GenerateFragments`, and the serializer `buildFragment`.

Conventions of the embedding.

* A method with a pointer receiver that mutates the state is a function that
  returns its Go result together with the state after the call.
* The Go map is an `AList`: an association list whose keys are pairwise
  distinct. A `range` over a Go map visits every entry once in an order the
  language leaves open, so a reader that ranges over the map is embedded as the
  list of the results it can produce, one per order of visit.
* The external collaborators (`generate.MixerFragment`, `proto.Marshal`,
  `common.NewUniquifier`) are arguments of the functions that call them.
* `panic(err)` is the outcome `Outcome.panicked err`.
-/

/-! ## Types declared outside the two source files -/

namespace resource

/-- Modelled from the spec: the declaration of `resource.Key` is not among the
sources. The spec calls it the "stable identity of a source resource,
independent of version (e.g., namespace+name)"; the code uses it only as the
key of the map, compared by equality. -/
structure Key where
  FullName : String
deriving DecidableEq, Repr

/-- Modelled from the spec: the "version-token" of a versioned key; the
declaration is not among the sources, "equality suffices". -/
abbrev Version := String

/-- Modelled from the spec: the declaration of `resource.VersionedKey` is not
among the sources: "(ResourceKey, version-token)". The code reads its field
`Key` and compares whole values with `==`. -/
structure VersionedKey where
  Key : resource.Key
  Version : resource.Version
deriving DecidableEq, Repr

end resource

namespace component

/-- Modelled from the spec: the kind of a component, converted with
`string(...)` in `GenerateManifest`. -/
abbrev Kind := String

/-- Modelled from the spec: the constant `component.MixerKind` is declared
outside the sources; it is the kind of the Mixer component. -/
def MixerKind : Kind := "mixer"

/-- Modelled from the spec: `component.InstanceId` is the "(component-kind,
component-name)" pair; the code fills the fields `Kind` and `Name`. -/
structure InstanceId where
  Kind : component.Kind
  Name : String
deriving DecidableEq, Repr

end component

namespace distributor

/-- Modelled from the spec: `distributor.BundleVersion` is declared outside the
sources; the code prints it with `%d`, an integer. -/
abbrev BundleVersion := Int

/-- Modelled from the spec: the constant `distributor.InstanceUrl`, the type
identifier of an instance payload (the spec writes "instance"). -/
def InstanceUrl : String := "instance"

/-- Modelled from the spec: the constant `distributor.RuleUrl`, the type
identifier of a rule payload (the spec writes "rule"). -/
def RuleUrl : String := "rule"

end distributor

/-- Encoded bytes, the `[]byte` returned by `proto.Marshal`. -/
abbrev Bytes := List (Fin 256)

namespace distrib

/-- Modelled from the spec: the message `distrib.Instance` is declared outside
the sources. The code reads its field `Name`; the other fields are kept as one
uninterpreted body. -/
structure Instance where
  Name : String
  Body : List Nat
deriving DecidableEq, Repr

/-- Modelled from the spec: the message `distrib.Rule` is declared outside the
sources. The code reads none of its fields; the spec gives every entity "the
entity's own name", kept here as `Name`, and the other fields are one
uninterpreted body. -/
structure Rule where
  Name : String
  Body : List Nat
deriving DecidableEq, Repr

end distrib

namespace types

/-- The two fields of `types.Any` that `buildFragment` fills. -/
structure Any where
  TypeUrl : String
  Value : Bytes
deriving DecidableEq, Repr

end types

namespace distrib

/-- The two fields of `distrib.Fragment` that `buildFragment` fills. -/
structure Fragment where
  Id : String
  Content : types.Any
deriving DecidableEq, Repr

/-- The four fields of `distrib.Manifest` that `GenerateManifest` fills. -/
structure Manifest where
  Id : String
  ComponentType : String
  ComponentId : String
  FragmentIds : List String
deriving DecidableEq, Repr

end distrib

namespace proto

/-- The values passed as `proto.Message` in this file: an instance or a rule. -/
inductive Message where
  | ofInstance (i : distrib.Instance)
  | ofRule (r : distrib.Rule)
deriving DecidableEq, Repr

end proto

/-- How a call of a Go function without an error result ends: it returns a
value, or it panics with the error it was handed. -/
inductive Outcome (E α : Type) where
  | returned (a : α)
  | panicked (err : E)
deriving DecidableEq, Repr

/-! ## The state (mixer.go, lines 31-63) -/

/-- The struct `mixerFragmentSet`. -/
structure mixerFragmentSet where
  id : String
  source : resource.VersionedKey
  instances : List distrib.Instance
  rules : List distrib.Rule
deriving DecidableEq, Repr

/-- One entry of the map `fragments`. -/
abbrev Entry := Sigma (fun _ : resource.Key => mixerFragmentSet)

/-- The map type `map[resource.Key]*mixerFragmentSet`. -/
abbrev FragmentMap := AList (fun _ : resource.Key => mixerFragmentSet)

/-- The struct `Mixer`; `U` is the state of the `common.Uniquifier` that the
field `u` points to. -/
structure Mixer (U : Type) where
  destination : component.InstanceId
  version : distributor.BundleVersion
  u : U
  fragments : FragmentMap
deriving DecidableEq

/-- The function `newMixerState`; `NewUniquifier` is the result of
`common.NewUniquifier()`. The field `version` keeps its zero value. -/
def newMixerState {U : Type} (NewUniquifier : U) (componentId : String) : Mixer U :=
  { destination := { Kind := component.MixerKind, Name := componentId }
    version := 0
    u := NewUniquifier
    fragments := ∅ }

namespace Mixer

variable {U PS E : Type}

/-- The method `Destination`. -/
def Destination (m : Mixer U) : component.InstanceId :=
  m.destination

/-- The orders in which one `range m.fragments` can visit the entries. -/
def rangeOrders (m : Mixer U) : List (List Entry) :=
  m.fragments.entries.permutations'

end Mixer

/-! ## The serializer (mixer.go, lines 142-157) -/

/-- The function `buildFragment`; the pair is Go's `(*distrib.Fragment, error)`,
`none` standing for `nil` on either side. -/
def buildFragment {E : Type} (Marshal : proto.Message → Except E Bytes)
    (id : String) (url : String) (p : proto.Message) :
    Option distrib.Fragment × Option E :=
  match Marshal p with
  | .error err => (none, some err)
  | .ok value => (some { Id := id, Content := { TypeUrl := url, Value := value } }, none)

/-! ## The readers (mixer.go, lines 69-110) -/

/-- The loop `for _, f := range m.fragments` of `GenerateManifest`, run over
the entries in the order `ord`, appending to `ids`. -/
def manifestLoop : List Entry → List String → List String
  | [], ids => ids
  | e :: rest, ids => manifestLoop rest (ids ++ [e.2.id])

/-- The loop `for _, in := range f.instances` of `GenerateFragments`. -/
def instancesLoop {E : Type} (Marshal : proto.Message → Except E Bytes) (f : mixerFragmentSet) :
    List distrib.Instance → List (Option distrib.Fragment) →
      Outcome E (List (Option distrib.Fragment))
  | [], result => .returned result
  | inst :: rest, result =>
    match buildFragment Marshal (f.id ++ "/" ++ inst.Name) distributor.InstanceUrl
        (.ofInstance inst) with
    | (_, some err) => .panicked err
    | (fr, none) => instancesLoop Marshal f rest (result ++ [fr])

/-- The loop `for _, r := range f.rules` of `GenerateFragments`. -/
def rulesLoop {E : Type} (Marshal : proto.Message → Except E Bytes) (f : mixerFragmentSet) :
    List distrib.Rule → List (Option distrib.Fragment) →
      Outcome E (List (Option distrib.Fragment))
  | [], result => .returned result
  | r :: rest, result =>
    match buildFragment Marshal (f.id ++ "/") distributor.RuleUrl (.ofRule r) with
    | (_, some err) => .panicked err
    | (fr, none) => rulesLoop Marshal f rest (result ++ [fr])

/-- The loop `for _, f := range m.fragments` of `GenerateFragments`, run over
the entries in the order `ord`, appending to `result`. -/
def fragmentsLoop {E : Type} (Marshal : proto.Message → Except E Bytes) :
    List Entry → List (Option distrib.Fragment) → Outcome E (List (Option distrib.Fragment))
  | [], result => .returned result
  | e :: rest, result =>
    match instancesLoop Marshal e.2 e.2.instances result with
    | .panicked err => .panicked err
    | .returned result1 =>
      match rulesLoop Marshal e.2 e.2.rules result1 with
      | .panicked err => .panicked err
      | .returned result2 => fragmentsLoop Marshal rest result2

namespace Mixer

variable {U PS E : Type}

/-- The method `GenerateManifest`: the manifests it can return, one per order
in which the `range` visits the map. -/
def GenerateManifest (m : Mixer U) : List distrib.Manifest :=
  m.rangeOrders.map fun ord =>
    { Id := "TODO"
      ComponentType := component.MixerKind
      ComponentId := m.destination.Name
      FragmentIds := manifestLoop ord [] }

/-- The method `GenerateFragments`: the outcomes it can have, one per order in
which the `range` visits the map. The elements of a returned slice are
pointers, `none` standing for `nil`. -/
def GenerateFragments (Marshal : proto.Message → Except E Bytes) (m : Mixer U) :
    List (Outcome E (List (Option distrib.Fragment))) :=
  m.rangeOrders.map fun ord => fragmentsLoop Marshal ord []

/-! ## The mutators (mixer.go, lines 116-140) -/

/-- The method `applyProducerService`. `MixerFragment` is
`generate.MixerFragment`: from the resource and the uniquifier it returns the
instances, the rules and the uniquifier as the call left it. The composite
literal sets no `id`, which keeps its zero value, the empty string. -/
def applyProducerService (MixerFragment : PS → U → List distrib.Instance × List distrib.Rule × U)
    (m : Mixer U) (key : resource.VersionedKey) (s : PS) : Bool × Mixer U :=
  if (match m.fragments.lookup key.Key with
      | some f => decide (f.source = key)
      | none => false) then
    (false, m)
  else
    let out := MixerFragment s m.u
    let f : mixerFragmentSet :=
      { id := "", source := key, instances := out.1, rules := out.2.1 }
    (true, { m with u := out.2.2, fragments := m.fragments.insert key.Key f })

/-- The test `ok && f.source == key` at the head of `applyProducerService`, on its
own, to state lemmas about it. -/
def sameSource (m : Mixer U) (key : resource.VersionedKey) : Bool :=
  match m.fragments.lookup key.Key with
  | some f => decide (f.source = key)
  | none => false

/-- The method `removeProducerService`. -/
def removeProducerService (m : Mixer U) (key : resource.VersionedKey) : Bool × Mixer U :=
  if (m.fragments.lookup key.Key).isNone then
    (false, m)
  else
    (true, { m with fragments := m.fragments.erase key.Key })

end Mixer

/-! ## What the readers are expected to produce

The definitions of this section are not translations of the source: they
describe results, and the theorems compare them with the loops above. -/

/-- The encoder succeeds on the payload `p`. -/
def Encodes {E : Type} (Marshal : proto.Message → Except E Bytes) (p : proto.Message) : Prop :=
  ∃ b, Marshal p = .ok b

/-- The encoder succeeds on every instance and every rule of the set `f`. -/
def EncodesSet {E : Type} (Marshal : proto.Message → Except E Bytes) (f : mixerFragmentSet) :
    Prop :=
  (∀ i ∈ f.instances, Encodes Marshal (.ofInstance i)) ∧
    (∀ r ∈ f.rules, Encodes Marshal (.ofRule r))

/-- The bytes of the payload `p` when the encoder succeeds on it. -/
def encodingOf {E : Type} (Marshal : proto.Message → Except E Bytes) (p : proto.Message) : Bytes :=
  match Marshal p with
  | .ok b => b
  | .error _ => []

/-- The instance fragments of the set `f`, in the order of its instances: the
type identifier is `distributor.InstanceUrl`, the value the encoding of the
instance, the id the id of the set, a slash and the name of the instance. -/
def instanceFragments {E : Type} (Marshal : proto.Message → Except E Bytes)
    (f : mixerFragmentSet) : List (Option distrib.Fragment) :=
  f.instances.map fun i =>
    some { Id := f.id ++ "/" ++ i.Name
           Content := { TypeUrl := distributor.InstanceUrl
                        Value := encodingOf Marshal (.ofInstance i) } }

/-- The rule fragments of the set `f`, in the order of its rules: the type
identifier is `distributor.RuleUrl`, the value the encoding of the rule, the id
the id of the set and a slash. -/
def ruleFragments {E : Type} (Marshal : proto.Message → Except E Bytes)
    (f : mixerFragmentSet) : List (Option distrib.Fragment) :=
  f.rules.map fun r =>
    some { Id := f.id ++ "/"
           Content := { TypeUrl := distributor.RuleUrl
                        Value := encodingOf Marshal (.ofRule r) } }

/-- The fragments of the set `f`: its instance fragments, then its rule
fragments. -/
def setFragments {E : Type} (Marshal : proto.Message → Except E Bytes)
    (f : mixerFragmentSet) : List (Option distrib.Fragment) :=
  instanceFragments Marshal f ++ ruleFragments Marshal f

/-- The fragments generated over the entries `ord`, grouped by their source
fragment set: one group per entry visited, labelled with the id of the set. -/
def groupedBySource {E : Type} (Marshal : proto.Message → Except E Bytes)
    (ord : List Entry) : List (String × List (Option distrib.Fragment)) :=
  ord.map fun e => (e.2.id, setFragments Marshal e.2)

/-- The ids of the fragment sets under which one run of `GenerateFragments`,
visiting the entries in the order `ord`, produces fragments: none when the run
panics, else the labels of the groups that are not empty. -/
def producingIds {E : Type} (Marshal : proto.Message → Except E Bytes)
    (ord : List Entry) : List String :=
  match fragmentsLoop Marshal ord [] with
  | .panicked _ => []
  | .returned _ =>
    ((groupedBySource Marshal ord).filter fun g => !g.2.isEmpty).map fun g => g.1

/-- The ids of the fragments that an outcome of `GenerateFragments` holds, in
order; none for a panic. -/
def returnedIds {E : Type} : Outcome E (List (Option distrib.Fragment)) → List String
  | .returned frs => frs.filterMap fun fr => fr.map fun x => x.Id
  | .panicked _ => []

/-! ## Sequences of calls -/

/-- One call of a mutator. -/
inductive Call (PS : Type) where
  | apply (key : resource.VersionedKey) (s : PS)
  | remove (key : resource.VersionedKey)

/-- The state after one call of a mutator. -/
def Call.run {U PS : Type} (MixerFragment : PS → U → List distrib.Instance × List distrib.Rule × U)
    (m : Mixer U) : Call PS → Mixer U
  | .apply key s => (m.applyProducerService MixerFragment key s).2
  | .remove key => (m.removeProducerService key).2

/-- The state after a finite sequence of calls, left to right. -/
def runCalls {U PS : Type} (MixerFragment : PS → U → List distrib.Instance × List distrib.Rule × U)
    (m : Mixer U) (calls : List (Call PS)) : Mixer U :=
  calls.foldl (Call.run MixerFragment) m

/-! ## Small concrete data used to evaluate the definitions -/

namespace Sample

def keyA : resource.Key := ⟨"A"⟩

def keyB : resource.Key := ⟨"B"⟩

def A1 : resource.VersionedKey := ⟨keyA, "v1"⟩

def A2 : resource.VersionedKey := ⟨keyA, "v2"⟩

def B1 : resource.VersionedKey := ⟨keyB, "v1"⟩

/-- A compiler: the resource is the list of names it asks for; every name
becomes one instance and one rule, and the uniquifier counts the calls. -/
def compile (s : List String) (u : Nat) : List distrib.Instance × List distrib.Rule × Nat :=
  (s.map fun n => ⟨n, []⟩, s.map fun n => ⟨n, [1]⟩, u + 1)

/-- An encoder that never fails. -/
def encode : proto.Message → Bytes
  | .ofInstance i => (0 : Fin 256) :: i.Body.map fun n => Fin.ofNat n
  | .ofRule r => (1 : Fin 256) :: r.Body.map fun n => Fin.ofNat n

/-- The encoder `encode` as a `proto.Marshal`. -/
def marshalOk (p : proto.Message) : Except String Bytes :=
  .ok (encode p)

/-- An encoder that fails on every rule. -/
def marshalNoRule : proto.Message → Except String Bytes
  | .ofInstance i => .ok (encode (.ofInstance i))
  | .ofRule _ => .error "cannot encode"

def start : Mixer Nat := newMixerState 0 "mixer-0"

/-- The state after `A@v1` was applied with the names `a` and `b`. -/
def one : Mixer Nat := (start.applyProducerService compile A1 ["a", "b"]).2

/-- The state after `A@v1` and then `B@v1` were applied. -/
def two : Mixer Nat := (one.applyProducerService compile B1 ["c"]).2

/-- The state after `A@v1` was applied with the name `a` and `B@v1` with the
name `b`. -/
def pair : Mixer Nat :=
  runCalls compile start [.apply A1 ["a"], .apply B1 ["b"]]

/-- The state after `A@v1` was applied with a resource that compiles to nothing. -/
def hollow : Mixer Nat := (start.applyProducerService compile A1 []).2

end Sample

/-! ## Lemmas on the two mutators -/

namespace Mixer

variable {U PS E : Type}

theorem sameSource_eq_true_iff (m : Mixer U) (key : resource.VersionedKey) :
    m.sameSource key = true ↔ ∃ f, m.fragments.lookup key.Key = some f ∧ f.source = key := by
  unfold sameSource
  cases h : m.fragments.lookup key.Key with
  | none => simp
  | some f => simp

theorem applyProducerService_of_same
    (MixerFragment : PS → U → List distrib.Instance × List distrib.Rule × U)
    (m : Mixer U) (key : resource.VersionedKey) (s : PS) (h : m.sameSource key = true) :
    m.applyProducerService MixerFragment key s = (false, m) := by
  unfold sameSource at h
  unfold applyProducerService
  rw [if_pos h]

theorem applyProducerService_of_not_same
    (MixerFragment : PS → U → List distrib.Instance × List distrib.Rule × U)
    (m : Mixer U) (key : resource.VersionedKey) (s : PS) (h : m.sameSource key = false) :
    m.applyProducerService MixerFragment key s =
      (true, { m with
        u := (MixerFragment s m.u).2.2
        fragments := m.fragments.insert key.Key
          { id := "", source := key, instances := (MixerFragment s m.u).1,
            rules := (MixerFragment s m.u).2.1 } }) := by
  unfold sameSource at h
  unfold applyProducerService
  rw [if_neg (by simp [h])]

theorem sameSource_after_apply
    (MixerFragment : PS → U → List distrib.Instance × List distrib.Rule × U)
    (m : Mixer U) (key : resource.VersionedKey) (s : PS) :
    (m.applyProducerService MixerFragment key s).2.sameSource key = true := by
  cases h : m.sameSource key with
  | true => rw [applyProducerService_of_same MixerFragment m key s h]; exact h
  | false =>
    rw [applyProducerService_of_not_same MixerFragment m key s h]
    simp [sameSource, AList.lookup_insert]

theorem removeProducerService_of_absent (m : Mixer U) (key : resource.VersionedKey)
    (h : m.fragments.lookup key.Key = none) :
    m.removeProducerService key = (false, m) := by
  unfold removeProducerService
  simp [h]

theorem removeProducerService_of_present (m : Mixer U) (key : resource.VersionedKey)
    (h : m.fragments.lookup key.Key ≠ none) :
    m.removeProducerService key = (true, { m with fragments := m.fragments.erase key.Key }) := by
  unfold removeProducerService
  cases h1 : m.fragments.lookup key.Key with
  | none => exact absurd h1 h
  | some f => simp

end Mixer

/-! ## Lemmas on the loops of the readers -/

theorem encodes_eq {E : Type} (Marshal : proto.Message → Except E Bytes) (p : proto.Message)
    (h : Encodes Marshal p) : Marshal p = .ok (encodingOf Marshal p) := by
  obtain ⟨b, hb⟩ := h
  simp [encodingOf, hb]

theorem manifestLoop_eq (ord : List Entry) (ids : List String) :
    manifestLoop ord ids = ids ++ ord.map fun e => e.2.id := by
  induction ord generalizing ids with
  | nil => simp [manifestLoop]
  | cons e rest ih => simp [manifestLoop, ih]

theorem instancesLoop_of_encodes {E : Type} (Marshal : proto.Message → Except E Bytes)
    (f : mixerFragmentSet) (l : List distrib.Instance)
    (result : List (Option distrib.Fragment))
    (h : ∀ i ∈ l, Encodes Marshal (.ofInstance i)) :
    instancesLoop Marshal f l result = .returned (result ++ l.map fun i =>
      some { Id := f.id ++ "/" ++ i.Name
             Content := { TypeUrl := distributor.InstanceUrl
                          Value := encodingOf Marshal (.ofInstance i) } }) := by
  induction l generalizing result with
  | nil => simp [instancesLoop]
  | cons i rest ih =>
    have hi := encodes_eq Marshal _ (h i (List.mem_cons_self _ _))
    have hrest : ∀ j ∈ rest, Encodes Marshal (.ofInstance j) :=
      fun j hj => h j (List.mem_cons_of_mem _ hj)
    simp [instancesLoop, buildFragment, hi, ih _ hrest]

theorem rulesLoop_of_encodes {E : Type} (Marshal : proto.Message → Except E Bytes)
    (f : mixerFragmentSet) (l : List distrib.Rule)
    (result : List (Option distrib.Fragment))
    (h : ∀ r ∈ l, Encodes Marshal (.ofRule r)) :
    rulesLoop Marshal f l result = .returned (result ++ l.map fun r =>
      some { Id := f.id ++ "/"
             Content := { TypeUrl := distributor.RuleUrl
                          Value := encodingOf Marshal (.ofRule r) } }) := by
  induction l generalizing result with
  | nil => simp [rulesLoop]
  | cons r rest ih =>
    have hr := encodes_eq Marshal _ (h r (List.mem_cons_self _ _))
    have hrest : ∀ j ∈ rest, Encodes Marshal (.ofRule j) :=
      fun j hj => h j (List.mem_cons_of_mem _ hj)
    simp [rulesLoop, buildFragment, hr, ih _ hrest]

theorem fragmentsLoop_of_encodes {E : Type} (Marshal : proto.Message → Except E Bytes)
    (ord : List Entry) (result : List (Option distrib.Fragment))
    (h : ∀ e ∈ ord, EncodesSet Marshal e.2) :
    fragmentsLoop Marshal ord result =
      .returned (result ++ ord.flatMap fun e => setFragments Marshal e.2) := by
  induction ord generalizing result with
  | nil => simp [fragmentsLoop]
  | cons e rest ih =>
    have he := h e (List.mem_cons_self _ _)
    have hrest : ∀ x ∈ rest, EncodesSet Marshal x.2 :=
      fun x hx => h x (List.mem_cons_of_mem _ hx)
    simp [fragmentsLoop, instancesLoop_of_encodes Marshal e.2 _ _ he.1,
      rulesLoop_of_encodes Marshal e.2 _ _ he.2, ih _ hrest, setFragments,
      instanceFragments, ruleFragments]

theorem length_setFragments {E : Type} (Marshal : proto.Message → Except E Bytes)
    (f : mixerFragmentSet) :
    (setFragments Marshal f).length = f.instances.length + f.rules.length := by
  simp [setFragments, instanceFragments, ruleFragments]

theorem length_flatMap_setFragments {E : Type} (Marshal : proto.Message → Except E Bytes)
    (ord : List Entry) :
    (ord.flatMap fun e => setFragments Marshal e.2).length =
      (ord.map fun e => e.2.instances.length + e.2.rules.length).sum := by
  induction ord with
  | nil => simp
  | cons e rest ih => simp [length_setFragments, ih]

theorem mem_rangeOrders {U : Type} (m : Mixer U) (ord : List Entry) :
    ord ∈ m.rangeOrders ↔ ord.Perm m.fragments.entries := by
  simp [Mixer.rangeOrders]

theorem rangeOrders_ne_nil {U : Type} (m : Mixer U) : m.rangeOrders ≠ [] := by
  intro h
  have : m.fragments.entries ∈ m.rangeOrders := (mem_rangeOrders m _).2 (List.Perm.refl _)
  rw [h] at this
  cases this

theorem kerase_eq_filter (a : resource.Key) (l : List Entry) (nd : l.NodupKeys) :
    l.kerase a = l.filter fun e => decide (e.1 ≠ a) := by
  induction l with
  | nil => simp
  | cons e rest ih =>
    have hnd := List.nodupKeys_cons.1 nd
    by_cases h : a = e.1
    · have hnot : a ∉ rest.keys := h ▸ hnd.1
      rw [List.kerase_cons_eq h, List.filter_cons_of_neg (by simp [h]), ← ih hnd.2,
        List.kerase_of_not_mem_keys hnot]
    · rw [List.kerase_cons_ne h, List.filter_cons_of_pos (by simpa using fun h1 => h h1.symm),
        ih hnd.2]

theorem mem_GenerateManifest {U : Type} (m : Mixer U) (man : distrib.Manifest)
    (h : man ∈ m.GenerateManifest) :
    ∃ ord : List Entry, ord.Perm m.fragments.entries ∧
      man = { Id := "TODO", ComponentType := component.MixerKind,
              ComponentId := m.destination.Name, FragmentIds := ord.map fun e => e.2.id } := by
  simp only [Mixer.GenerateManifest, List.mem_map] at h
  obtain ⟨ord, hord, rfl⟩ := h
  exact ⟨ord, (mem_rangeOrders m ord).1 hord, by simp [manifestLoop_eq]⟩

theorem mem_producingIds {E : Type} (Marshal : proto.Message → Except E Bytes)
    (ord : List Entry) (id : String) (h : id ∈ producingIds Marshal ord) :
    ∃ e ∈ ord, e.2.id = id ∧ setFragments Marshal e.2 ≠ [] := by
  unfold producingIds at h
  cases hl : fragmentsLoop Marshal ord [] with
  | panicked err => simp [hl] at h
  | returned frs =>
    simp only [hl, groupedBySource, List.mem_map, List.mem_filter] at h
    obtain ⟨g, ⟨⟨e, he, rfl⟩, hg⟩, rfl⟩ := h
    refine ⟨e, he, rfl, ?_⟩
    intro hnil
    simp [hnil] at hg

theorem producingIds_of_encodes {E : Type} (Marshal : proto.Message → Except E Bytes)
    (ord : List Entry) (h : ∀ e ∈ ord, EncodesSet Marshal e.2) (e : Entry) (he : e ∈ ord)
    (hne : e.2.instances ≠ [] ∨ e.2.rules ≠ []) : e.2.id ∈ producingIds Marshal ord := by
  unfold producingIds
  rw [fragmentsLoop_of_encodes Marshal ord [] h]
  simp only [groupedBySource, List.mem_map, List.mem_filter]
  refine ⟨(e.2.id, setFragments Marshal e.2), ⟨⟨e, he, rfl⟩, ?_⟩, rfl⟩
  have hlen := length_setFragments Marshal e.2
  cases hs : setFragments Marshal e.2 with
  | nil =>
    rw [hs] at hlen
    simp only [List.length_nil] at hlen
    rcases hne with h1 | h1
    · exact absurd (List.length_eq_zero.1 (by omega)) h1
    · exact absurd (List.length_eq_zero.1 (by omega)) h1
  | cons a l => simp

theorem manifest_consistency_of_state {U E : Type} (Marshal : proto.Message → Except E Bytes)
    (m : Mixer U) (man : distrib.Manifest) (hman : man ∈ m.GenerateManifest)
    (ord : List Entry) (hord : ord ∈ m.rangeOrders) :
    man.FragmentIds.Perm (m.fragments.entries.map fun e => e.2.id) ∧
      (∀ id ∈ producingIds Marshal ord, id ∈ man.FragmentIds) ∧
      ((∀ e ∈ m.fragments.entries,
          EncodesSet Marshal e.2 ∧ (e.2.instances ≠ [] ∨ e.2.rules ≠ [])) →
        ∀ id ∈ man.FragmentIds, id ∈ producingIds Marshal ord) ∧
      ((∀ e ∈ m.fragments.entries, EncodesSet Marshal e.2) →
        fragmentsLoop Marshal ord [] =
          .returned ((groupedBySource Marshal ord).flatMap fun g => g.2)) := by
  obtain ⟨ord2, hperm2, rfl⟩ := mem_GenerateManifest m man hman
  have hperm := (mem_rangeOrders m ord).1 hord
  refine ⟨hperm2.map _, ?_, ?_, ?_⟩
  · intro id hid
    obtain ⟨e, he, rfl, _⟩ := mem_producingIds Marshal ord id hid
    exact List.mem_map.2 ⟨e, hperm2.mem_iff.2 (hperm.mem_iff.1 he), rfl⟩
  · intro hall id hid
    obtain ⟨e, he, rfl⟩ := List.mem_map.1 hid
    have hmem := hperm2.mem_iff.1 he
    exact producingIds_of_encodes Marshal ord
      (fun x hx => (hall x (hperm.mem_iff.1 hx)).1) e (hperm.mem_iff.2 hmem) (hall e hmem).2
  · intro hall
    rw [fragmentsLoop_of_encodes Marshal ord [] fun x hx => hall x (hperm.mem_iff.1 hx)]
    simp [groupedBySource, List.flatMap_map]

/-! ## Lemmas on what the mutators leave alone, and invariants of sequences of calls -/

theorem applyProducerService_fst {U PS : Type}
    (MixerFragment : PS → U → List distrib.Instance × List distrib.Rule × U)
    (m : Mixer U) (key : resource.VersionedKey) (s : PS) :
    (m.applyProducerService MixerFragment key s).1 = !m.sameSource key := by
  cases h : m.sameSource key with
  | true => rw [Mixer.applyProducerService_of_same MixerFragment m key s h]; rfl
  | false => rw [Mixer.applyProducerService_of_not_same MixerFragment m key s h]; rfl

theorem applyProducerService_destination {U PS : Type}
    (MixerFragment : PS → U → List distrib.Instance × List distrib.Rule × U)
    (m : Mixer U) (key : resource.VersionedKey) (s : PS) :
    (m.applyProducerService MixerFragment key s).2.destination = m.destination := by
  cases h : m.sameSource key with
  | true => rw [Mixer.applyProducerService_of_same MixerFragment m key s h]
  | false => rw [Mixer.applyProducerService_of_not_same MixerFragment m key s h]

theorem applyProducerService_version {U PS : Type}
    (MixerFragment : PS → U → List distrib.Instance × List distrib.Rule × U)
    (m : Mixer U) (key : resource.VersionedKey) (s : PS) :
    (m.applyProducerService MixerFragment key s).2.version = m.version := by
  cases h : m.sameSource key with
  | true => rw [Mixer.applyProducerService_of_same MixerFragment m key s h]
  | false => rw [Mixer.applyProducerService_of_not_same MixerFragment m key s h]

theorem applyProducerService_lookup_of_ne {U PS : Type}
    (MixerFragment : PS → U → List distrib.Instance × List distrib.Rule × U)
    (m : Mixer U) (key : resource.VersionedKey) (s : PS) (K : resource.Key)
    (hK : K ≠ key.Key) :
    (m.applyProducerService MixerFragment key s).2.fragments.lookup K =
      m.fragments.lookup K := by
  cases h : m.sameSource key with
  | true => rw [Mixer.applyProducerService_of_same MixerFragment m key s h]
  | false =>
    rw [Mixer.applyProducerService_of_not_same MixerFragment m key s h]
    exact AList.lookup_insert_ne hK

theorem removeProducerService_destination {U : Type} (m : Mixer U)
    (key : resource.VersionedKey) :
    (m.removeProducerService key).2.destination = m.destination := by
  unfold Mixer.removeProducerService
  split <;> rfl

theorem removeProducerService_version {U : Type} (m : Mixer U)
    (key : resource.VersionedKey) :
    (m.removeProducerService key).2.version = m.version := by
  unfold Mixer.removeProducerService
  split <;> rfl

theorem removeProducerService_lookup_of_ne {U : Type} (m : Mixer U)
    (key : resource.VersionedKey) (K : resource.Key) (hK : K ≠ key.Key) :
    (m.removeProducerService key).2.fragments.lookup K = m.fragments.lookup K := by
  unfold Mixer.removeProducerService
  split
  · rfl
  · exact AList.lookup_erase_ne hK

theorem runCalls_invariant {U PS : Type}
    (MixerFragment : PS → U → List distrib.Instance × List distrib.Rule × U)
    (P : Mixer U → Prop)
    (hstep : ∀ m c, P m → P (Call.run MixerFragment m c))
    (calls : List (Call PS)) (m : Mixer U) (h0 : P m) :
    P (runCalls MixerFragment m calls) := by
  induction calls generalizing m with
  | nil => exact h0
  | cons c rest ih => exact ih (Call.run MixerFragment m c) (hstep m c h0)

theorem runCalls_destination {U PS : Type}
    (MixerFragment : PS → U → List distrib.Instance × List distrib.Rule × U)
    (m : Mixer U) (calls : List (Call PS)) :
    (runCalls MixerFragment m calls).destination = m.destination := by
  refine runCalls_invariant MixerFragment (fun x => x.destination = m.destination) ?_ calls m rfl
  intro x c hx
  cases c with
  | apply key s => exact (applyProducerService_destination MixerFragment x key s).trans hx
  | remove key => exact (removeProducerService_destination x key).trans hx

theorem runCalls_source_key {U PS : Type}
    (MixerFragment : PS → U → List distrib.Instance × List distrib.Rule × U)
    (NewUniquifier : U) (componentId : String) (calls : List (Call PS))
    (K : resource.Key) (f : mixerFragmentSet)
    (h : (runCalls MixerFragment (newMixerState NewUniquifier componentId)
      calls).fragments.lookup K = some f) :
    f.source.Key = K := by
  have hinv := runCalls_invariant MixerFragment
    (fun x => ∀ K f, x.fragments.lookup K = some f → f.source.Key = K) ?_ calls
    (newMixerState NewUniquifier componentId) ?_
  · exact hinv K f h
  · intro x c hx K f hf
    cases c with
    | apply key s =>
      by_cases hK : K = key.Key
      · subst hK
        cases hs : x.sameSource key with
        | true =>
          simp only [Call.run, Mixer.applyProducerService_of_same MixerFragment x key s hs] at hf
          exact hx _ f hf
        | false =>
          simp only [Call.run, Mixer.applyProducerService_of_not_same MixerFragment x key s hs,
            AList.lookup_insert, Option.some.injEq] at hf
          rw [← hf]
      · simp only [Call.run, applyProducerService_lookup_of_ne MixerFragment x key s K hK] at hf
        exact hx K f hf
    | remove key =>
      by_cases hK : K = key.Key
      · subst hK
        simp only [Call.run, Mixer.removeProducerService] at hf
        split at hf
        · exact hx _ f hf
        · simp [AList.lookup_erase] at hf
      · simp only [Call.run, removeProducerService_lookup_of_ne x key K hK] at hf
        exact hx K f hf
  · intro K f hf
    simp [newMixerState] at hf

theorem length_kerase_entries (a : resource.Key) (l : List Entry) :
    (l.kerase a).length = if a ∈ l.keys then l.length - 1 else l.length := by
  have h1 : (l.kerase a).length = (l.kerase a).keys.length := by simp [List.keys]
  have h2 : l.length = l.keys.length := by simp [List.keys]
  rw [h1, List.keys_kerase, List.length_erase, h2]

/-! ## The claims -/

section Claims

variable {U PS E : Type}


/-- C1. Idempotence of `applyProducerService`: after a first call with the key
`k` (whatever it returned), a second call with `k`, with any resource and any
compiler, returns false and hands back the state it was given, hence the same
map, the same entry under `k.Key`, the same uniquifier and the same version.
Since the result is the same for every compiler, the compiler is not consulted. -/
theorem applyProducerService_idempotent
    (MixerFragment MixerFragment2 : PS → U → List distrib.Instance × List distrib.Rule × U)
    (m : Mixer U) (k : resource.VersionedKey) (s s2 : PS) :
    ((m.applyProducerService MixerFragment k s).2.applyProducerService MixerFragment2 k s2).1
        = false ∧
      ((m.applyProducerService MixerFragment k s).2.applyProducerService MixerFragment2 k s2).2
        = (m.applyProducerService MixerFragment k s).2 ∧
      ((m.applyProducerService MixerFragment k s).2.applyProducerService MixerFragment2 k s2).2.fragments.lookup k.Key
        = (m.applyProducerService MixerFragment k s).2.fragments.lookup k.Key ∧
      ((m.applyProducerService MixerFragment k s).2.applyProducerService MixerFragment2 k s2).2.u
        = (m.applyProducerService MixerFragment k s).2.u ∧
      ((m.applyProducerService MixerFragment k s).2.applyProducerService MixerFragment2 k s2).2.version
        = (m.applyProducerService MixerFragment k s).2.version := by
  rw [Mixer.applyProducerService_of_same MixerFragment2 _ k s2
    (Mixer.sameSource_after_apply MixerFragment m k s)]
  exact ⟨rfl, rfl, rfl, rfl, rfl⟩

/-- C2. Version sensitivity of `applyProducerService`: when the state has no
entry under `K`, or has one whose source is `(K, v1)` with `v1` different from
`v2`, applying `(K, v2)` returns true, and afterwards the entry under `K` has
the source `(K, v2)` and, as instances and rules, the two lists the compiler
returned for the resource and the uniquifier of the state. -/
theorem applyProducerService_version_sensitive
    (MixerFragment : PS → U → List distrib.Instance × List distrib.Rule × U)
    (m : Mixer U) (K : resource.Key) (v2 : resource.Version) (s : PS)
    (h : m.fragments.lookup K = none ∨
      ∃ f v1, m.fragments.lookup K = some f ∧ f.source = ⟨K, v1⟩ ∧ v1 ≠ v2) :
    (m.applyProducerService MixerFragment ⟨K, v2⟩ s).1 = true ∧
      ∃ g, (m.applyProducerService MixerFragment ⟨K, v2⟩ s).2.fragments.lookup K = some g ∧
        g.source = ⟨K, v2⟩ ∧
        g.instances = (MixerFragment s m.u).1 ∧
        g.rules = (MixerFragment s m.u).2.1 := by
  have hs : m.sameSource ⟨K, v2⟩ = false := by
    rw [Bool.eq_false_iff]
    intro ht
    obtain ⟨f, hf, hsrc⟩ := (Mixer.sameSource_eq_true_iff m ⟨K, v2⟩).1 ht
    rcases h with h | ⟨f1, v1, hf1, hsrc1, hne⟩
    · simp [h] at hf
    · simp only [hf1, Option.some.injEq] at hf
      subst hf
      rw [hsrc1] at hsrc
      exact hne (by injection hsrc)
  rw [Mixer.applyProducerService_of_not_same MixerFragment m ⟨K, v2⟩ s hs]
  exact ⟨rfl, _, AList.lookup_insert _, rfl, rfl, rfl⟩

theorem applyProducerService_version_sensitive_witness :
    (Sample.one.applyProducerService Sample.compile ⟨Sample.keyA, "v2"⟩ ["z"]).1 = true ∧
      ∃ g, (Sample.one.applyProducerService Sample.compile
          ⟨Sample.keyA, "v2"⟩ ["z"]).2.fragments.lookup Sample.keyA = some g ∧
        g.source = ⟨Sample.keyA, "v2"⟩ ∧
        g.instances = (Sample.compile ["z"] Sample.one.u).1 ∧
        g.rules = (Sample.compile ["z"] Sample.one.u).2.1 :=
  applyProducerService_version_sensitive Sample.compile Sample.one Sample.keyA "v2" ["z"]
    (Or.inr ⟨⟨"", Sample.A1, [⟨"a", []⟩, ⟨"b", []⟩], [⟨"a", [1]⟩, ⟨"b", [1]⟩]⟩, "v1",
      by decide, by decide, by decide⟩)

/-- C4. Removal of an absent key: when the state has no entry under `key.Key`,
`removeProducerService` returns false and hands back the state it was given;
and whenever it returns true, an entry under `key.Key` existed. -/
theorem removeProducerService_absent (m : Mixer U) (key : resource.VersionedKey) :
    (m.fragments.lookup key.Key = none →
      (m.removeProducerService key).1 = false ∧ (m.removeProducerService key).2 = m ∧
        (m.removeProducerService key).2.fragments = m.fragments ∧
        (m.removeProducerService key).2.destination = m.destination ∧
        (m.removeProducerService key).2.version = m.version ∧
        (m.removeProducerService key).2.u = m.u) ∧
      ((m.removeProducerService key).1 = true → ∃ f, m.fragments.lookup key.Key = some f) := by
  constructor
  · intro h
    rw [Mixer.removeProducerService_of_absent m key h]
    exact ⟨rfl, rfl, rfl, rfl, rfl, rfl⟩
  · intro h
    cases hl : m.fragments.lookup key.Key with
    | none => rw [Mixer.removeProducerService_of_absent m key hl] at h; cases h
    | some f => exact ⟨f, rfl⟩

/-- C10. Serializer contract of `buildFragment`: when the encoder succeeds on
`p` with the bytes `b`, the result is the fragment with the given id, the given
type url and the value `b`, and no error; when the encoder fails with `e`, the
result is no fragment and exactly `e`. In every case exactly one of the two
sides is present. -/
theorem buildFragment_contract (Marshal : proto.Message → Except E Bytes)
    (id url : String) (p : proto.Message) :
    (∀ b, Marshal p = .ok b →
      buildFragment Marshal id url p =
        (some { Id := id, Content := { TypeUrl := url, Value := b } }, none)) ∧
      (∀ e, Marshal p = .error e → buildFragment Marshal id url p = (none, some e)) ∧
      ((buildFragment Marshal id url p).1.isSome ≠ (buildFragment Marshal id url p).2.isSome) := by
  unfold buildFragment
  cases h : Marshal p with
  | error e => simp
  | ok b => simp

theorem removeProducerService_absent_witness :
    (Sample.one.fragments.lookup Sample.B1.Key = none →
      (Sample.one.removeProducerService Sample.B1).1 = false ∧
        (Sample.one.removeProducerService Sample.B1).2 = Sample.one ∧
        (Sample.one.removeProducerService Sample.B1).2.fragments = Sample.one.fragments ∧
        (Sample.one.removeProducerService Sample.B1).2.destination = Sample.one.destination ∧
        (Sample.one.removeProducerService Sample.B1).2.version = Sample.one.version ∧
        (Sample.one.removeProducerService Sample.B1).2.u = Sample.one.u) ∧
      ((Sample.one.removeProducerService Sample.B1).1 = true →
        ∃ f, Sample.one.fragments.lookup Sample.B1.Key = some f) :=
  removeProducerService_absent Sample.one Sample.B1

theorem buildFragment_contract_witness :
    (∀ b, Sample.marshalOk (.ofRule ⟨"r", [7]⟩) = .ok b →
      buildFragment Sample.marshalOk "x/r" "rule" (.ofRule ⟨"r", [7]⟩) =
        (some { Id := "x/r", Content := { TypeUrl := "rule", Value := b } }, none)) ∧
      (∀ e, Sample.marshalOk (.ofRule ⟨"r", [7]⟩) = .error e →
        buildFragment Sample.marshalOk "x/r" "rule" (.ofRule ⟨"r", [7]⟩) = (none, some e)) ∧
      ((buildFragment Sample.marshalOk "x/r" "rule" (.ofRule ⟨"r", [7]⟩)).1.isSome ≠
        (buildFragment Sample.marshalOk "x/r" "rule" (.ofRule ⟨"r", [7]⟩)).2.isSome) :=
  buildFragment_contract Sample.marshalOk "x/r" "rule" (.ofRule ⟨"r", [7]⟩)

/-- C8. Structure of `GenerateFragments`: when the encoder succeeds on every
stored entity, the method has an outcome, and each outcome is a return of the
concatenation, over the stored sets in one order of visit of the map, of the
instance fragments of the set (in the order of its instances, typed
`distributor.InstanceUrl`, valued with the encoding of the instance) followed by
its rule fragments (in the order of its rules, typed `distributor.RuleUrl`,
valued with the encoding of the rule); the length of the returned list is the
sum over the stored sets of the number of instances plus the number of rules. -/
theorem GenerateFragments_structure (Marshal : proto.Message → Except E Bytes) (m : Mixer U)
    (h : ∀ e ∈ m.fragments.entries, EncodesSet Marshal e.2) :
    m.GenerateFragments Marshal ≠ [] ∧
      ∀ out ∈ m.GenerateFragments Marshal,
        ∃ ord : List Entry, ord.Perm m.fragments.entries ∧
          out = .returned (ord.flatMap fun e =>
            instanceFragments Marshal e.2 ++ ruleFragments Marshal e.2) ∧
          ∃ frs, out = .returned frs ∧
            frs.length =
              (m.fragments.entries.map fun e => e.2.instances.length + e.2.rules.length).sum := by
  constructor
  · simpa [Mixer.GenerateFragments] using rangeOrders_ne_nil m
  · intro out hout
    simp only [Mixer.GenerateFragments, List.mem_map] at hout
    obtain ⟨ord, hord, rfl⟩ := hout
    have hperm := (mem_rangeOrders m ord).1 hord
    have henc : ∀ e ∈ ord, EncodesSet Marshal e.2 := fun e he => h e (hperm.mem_iff.1 he)
    have hloop := fragmentsLoop_of_encodes Marshal ord [] henc
    simp only [List.nil_append] at hloop
    refine ⟨ord, hperm, hloop, _, hloop, ?_⟩
    rw [length_flatMap_setFragments]
    exact (hperm.map _).sum_eq

theorem GenerateFragments_structure_witness :
    (∀ e ∈ Sample.two.fragments.entries, EncodesSet Sample.marshalOk e.2) ∧
      (Sample.two.GenerateFragments Sample.marshalOk ≠ [] ∧
        ∀ out ∈ Sample.two.GenerateFragments Sample.marshalOk,
          ∃ ord : List Entry, ord.Perm Sample.two.fragments.entries ∧
            out = .returned (ord.flatMap fun e =>
              instanceFragments Sample.marshalOk e.2 ++ ruleFragments Sample.marshalOk e.2) ∧
            ∃ frs, out = .returned frs ∧
              frs.length =
                (Sample.two.fragments.entries.map fun e =>
                  e.2.instances.length + e.2.rules.length).sum) :=
  have h : ∀ e ∈ Sample.two.fragments.entries, EncodesSet Sample.marshalOk e.2 :=
    fun _ _ => ⟨fun _ _ => ⟨_, rfl⟩, fun _ _ => ⟨_, rfl⟩⟩
  ⟨h, GenerateFragments_structure Sample.marshalOk Sample.two h⟩

/-- C3, as the claim states it, fails: `Sample.two` has an entry under the
resource key of `A@v2`; after its removal the remaining set, stored under `B`,
has one instance and one rule, yet with an encoder that fails on rules the only
outcome of `GenerateFragments` on the resulting state is a panic, so no outcome
returns one fragment per instance and per rule of the remaining entries. -/
theorem removeProducerService_present_then_panic :
    Sample.two.fragments.lookup Sample.A2.Key ≠ none ∧
      (Sample.two.removeProducerService Sample.A2).1 = true ∧
      ((Sample.two.fragments.entries.filter (fun e => decide (e.1 ≠ Sample.A2.Key))).map
        fun e => e.2.instances.length + e.2.rules.length).sum = 2 ∧
      (Sample.two.removeProducerService Sample.A2).2.GenerateFragments Sample.marshalNoRule =
        [.panicked "cannot encode"] ∧
      ¬ (∀ out ∈ (Sample.two.removeProducerService Sample.A2).2.GenerateFragments
          Sample.marshalNoRule,
        ∃ frs, out = .returned frs ∧
          frs.length =
            ((Sample.two.fragments.entries.filter
              (fun e => decide (e.1 ≠ Sample.A2.Key))).map fun e =>
              e.2.instances.length + e.2.rules.length).sum) := by
  refine ⟨by decide, by decide, by decide, by decide, ?_⟩
  intro hall
  obtain ⟨frs, hfrs, _⟩ := hall (.panicked "cannot encode") (by decide)
  cases hfrs

/-- C3, amended. Removal of a present key: when the state has an entry under
`key.Key`, `removeProducerService` returns true, the resulting state has no
entry under `key.Key` and keeps exactly the other entries, and
`GenerateFragments` on the resulting state has an outcome, each outcome being
the run of the loops over one order of the remaining entries; when the encoder
succeeds on every instance and rule of the remaining sets, that outcome returns
exactly the fragments of the remaining sets, one per instance and per rule of
the entries other than `key.Key`, whatever the encoder does on the removed set. -/
theorem removeProducerService_present (Marshal : proto.Message → Except E Bytes)
    (m : Mixer U) (key : resource.VersionedKey) (h : m.fragments.lookup key.Key ≠ none) :
    (m.removeProducerService key).1 = true ∧
      (m.removeProducerService key).2.fragments.lookup key.Key = none ∧
      (m.removeProducerService key).2.fragments.entries =
        m.fragments.entries.filter (fun e => decide (e.1 ≠ key.Key)) ∧
      (m.removeProducerService key).2.GenerateFragments Marshal ≠ [] ∧
      ∀ out ∈ (m.removeProducerService key).2.GenerateFragments Marshal,
        ∃ ord : List Entry,
          ord.Perm (m.fragments.entries.filter (fun e => decide (e.1 ≠ key.Key))) ∧
          out = fragmentsLoop Marshal ord [] ∧
          ((∀ e ∈ m.fragments.entries, e.1 ≠ key.Key → EncodesSet Marshal e.2) →
            out = .returned (ord.flatMap fun e =>
              instanceFragments Marshal e.2 ++ ruleFragments Marshal e.2) ∧
            ∃ frs, out = .returned frs ∧
              frs.length =
                ((m.fragments.entries.filter (fun e => decide (e.1 ≠ key.Key))).map fun e =>
                  e.2.instances.length + e.2.rules.length).sum) := by
  have hentries : (m.removeProducerService key).2.fragments.entries =
      m.fragments.entries.filter (fun e => decide (e.1 ≠ key.Key)) := by
    rw [Mixer.removeProducerService_of_present m key h]
    exact kerase_eq_filter key.Key m.fragments.entries m.fragments.nodupKeys
  refine ⟨?_, ?_, hentries, ?_, ?_⟩
  · rw [Mixer.removeProducerService_of_present m key h]
  · rw [Mixer.removeProducerService_of_present m key h]
    exact AList.lookup_erase _ _
  · simpa [Mixer.GenerateFragments] using rangeOrders_ne_nil (m.removeProducerService key).2
  · intro out hout
    simp only [Mixer.GenerateFragments, List.mem_map] at hout
    obtain ⟨ord, hord, rfl⟩ := hout
    have hperm := (mem_rangeOrders _ ord).1 hord
    rw [hentries] at hperm
    refine ⟨ord, hperm, rfl, ?_⟩
    intro henc
    have henc2 : ∀ e ∈ ord, EncodesSet Marshal e.2 := by
      intro e he
      have hmem := List.mem_filter.1 (hperm.mem_iff.1 he)
      exact henc e hmem.1 (by simpa using hmem.2)
    have hloop := fragmentsLoop_of_encodes Marshal ord [] henc2
    simp only [List.nil_append] at hloop
    refine ⟨hloop, _, hloop, ?_⟩
    rw [length_flatMap_setFragments]
    exact (hperm.map _).sum_eq

theorem removeProducerService_present_witness :
    Sample.two.fragments.lookup Sample.A2.Key ≠ none ∧
      ((Sample.two.removeProducerService Sample.A2).1 = true ∧
      (Sample.two.removeProducerService Sample.A2).2.fragments.lookup Sample.A2.Key = none ∧
      (Sample.two.removeProducerService Sample.A2).2.fragments.entries =
        Sample.two.fragments.entries.filter (fun e => decide (e.1 ≠ Sample.A2.Key)) ∧
      (Sample.two.removeProducerService Sample.A2).2.GenerateFragments Sample.marshalOk ≠ [] ∧
      ∀ out ∈ (Sample.two.removeProducerService Sample.A2).2.GenerateFragments
          Sample.marshalOk,
        ∃ ord : List Entry,
          ord.Perm (Sample.two.fragments.entries.filter
            (fun e => decide (e.1 ≠ Sample.A2.Key))) ∧
          out = fragmentsLoop Sample.marshalOk ord [] ∧
          ((∀ e ∈ Sample.two.fragments.entries, e.1 ≠ Sample.A2.Key →
              EncodesSet Sample.marshalOk e.2) →
            out = .returned (ord.flatMap fun e =>
              instanceFragments Sample.marshalOk e.2 ++
                ruleFragments Sample.marshalOk e.2) ∧
            ∃ frs, out = .returned frs ∧
              frs.length =
                ((Sample.two.fragments.entries.filter
                  (fun e => decide (e.1 ≠ Sample.A2.Key))).map fun e =>
                  e.2.instances.length + e.2.rules.length).sum)) :=
  ⟨by decide, removeProducerService_present Sample.marshalOk Sample.two Sample.A2 (by decide)⟩

/-- C5, as the claim states it, fails: after one apply whose resource compiles
to no instance and no rule, the manifest lists the id of the stored set, yet
`GenerateFragments` returns the empty list, so no fragment is produced under
that id. -/
theorem manifest_lists_id_without_fragments :
    Sample.hollow = runCalls Sample.compile (newMixerState 0 "mixer-0") [.apply Sample.A1 []] ∧
      Sample.hollow.GenerateFragments Sample.marshalOk = [.returned []] ∧
      ¬ (∀ man ∈ Sample.hollow.GenerateManifest, ∀ ord ∈ Sample.hollow.rangeOrders,
          ∀ id, id ∈ man.FragmentIds ↔ id ∈ producingIds Sample.marshalOk ord) := by
  refine ⟨rfl, by decide, ?_⟩
  intro hall
  have h := (hall ⟨"TODO", "mixer", "mixer-0", [""]⟩ (by decide)
    Sample.hollow.fragments.entries (by decide) "").1 (by decide)
  revert h
  decide

/-- C5, amended. In every state reached from `newMixerState` by a finite
sequence of calls of the two mutators, for every manifest `GenerateManifest` can
return and every order in which `GenerateFragments` can visit the map: the
fragment ids of the manifest are the ids of the stored fragment sets, one per
set; every id under which fragments are produced is in the manifest; every id of
the manifest has fragments produced under it when the encoder succeeds on every
stored entity and every stored set has at least one instance or rule; and when
the encoder succeeds on every stored entity the returned list is the
concatenation of the groups. -/
theorem manifest_fragments_consistency
    (MixerFragment : PS → U → List distrib.Instance × List distrib.Rule × U)
    (Marshal : proto.Message → Except E Bytes)
    (NewUniquifier : U) (componentId : String) (calls : List (Call PS))
    (man : distrib.Manifest)
    (hman : man ∈
      (runCalls MixerFragment (newMixerState NewUniquifier componentId) calls).GenerateManifest)
    (ord : List Entry)
    (hord : ord ∈
      (runCalls MixerFragment (newMixerState NewUniquifier componentId) calls).rangeOrders) :
    man.FragmentIds.Perm
        ((runCalls MixerFragment (newMixerState NewUniquifier componentId)
          calls).fragments.entries.map fun e => e.2.id) ∧
      (∀ id ∈ producingIds Marshal ord, id ∈ man.FragmentIds) ∧
      ((∀ e ∈ (runCalls MixerFragment (newMixerState NewUniquifier componentId)
            calls).fragments.entries,
          EncodesSet Marshal e.2 ∧ (e.2.instances ≠ [] ∨ e.2.rules ≠ [])) →
        ∀ id ∈ man.FragmentIds, id ∈ producingIds Marshal ord) ∧
      ((∀ e ∈ (runCalls MixerFragment (newMixerState NewUniquifier componentId)
            calls).fragments.entries, EncodesSet Marshal e.2) →
        fragmentsLoop Marshal ord [] =
          .returned ((groupedBySource Marshal ord).flatMap fun g => g.2)) :=
  manifest_consistency_of_state Marshal _ man hman ord hord

theorem manifest_fragments_consistency_witness :
    (⟨"TODO", "mixer", "mixer-0", ["", ""]⟩ : distrib.Manifest) ∈
        (runCalls Sample.compile (newMixerState 0 "mixer-0")
          [.apply Sample.A1 ["a"], .apply Sample.B1 ["b"]]).GenerateManifest ∧
      Sample.pair.fragments.entries ∈
        (runCalls Sample.compile (newMixerState 0 "mixer-0")
          [.apply Sample.A1 ["a"], .apply Sample.B1 ["b"]]).rangeOrders ∧
      ((⟨"TODO", "mixer", "mixer-0", ["", ""]⟩ : distrib.Manifest).FragmentIds.Perm
        ((runCalls Sample.compile (newMixerState 0 "mixer-0")
          [.apply Sample.A1 ["a"], .apply Sample.B1 ["b"]]).fragments.entries.map
            fun e => e.2.id) ∧
      (∀ id ∈ producingIds Sample.marshalOk Sample.pair.fragments.entries,
        id ∈ (⟨"TODO", "mixer", "mixer-0", ["", ""]⟩ : distrib.Manifest).FragmentIds) ∧
      ((∀ e ∈ (runCalls Sample.compile (newMixerState 0 "mixer-0")
            [.apply Sample.A1 ["a"], .apply Sample.B1 ["b"]]).fragments.entries,
          EncodesSet Sample.marshalOk e.2 ∧ (e.2.instances ≠ [] ∨ e.2.rules ≠ [])) →
        ∀ id ∈ (⟨"TODO", "mixer", "mixer-0", ["", ""]⟩ : distrib.Manifest).FragmentIds,
          id ∈ producingIds Sample.marshalOk Sample.pair.fragments.entries) ∧
      ((∀ e ∈ (runCalls Sample.compile (newMixerState 0 "mixer-0")
            [.apply Sample.A1 ["a"], .apply Sample.B1 ["b"]]).fragments.entries,
          EncodesSet Sample.marshalOk e.2) →
        fragmentsLoop Sample.marshalOk Sample.pair.fragments.entries [] =
          .returned ((groupedBySource Sample.marshalOk
            Sample.pair.fragments.entries).flatMap fun g => g.2))) :=
  ⟨by decide, by decide,
    manifest_fragments_consistency Sample.compile Sample.marshalOk 0 "mixer-0"
      [.apply Sample.A1 ["a"], .apply Sample.B1 ["b"]] ⟨"TODO", "mixer", "mixer-0", ["", ""]⟩
      (by decide) Sample.pair.fragments.entries (by decide)⟩

/-- C6, evaluated where it fails: after `A@v1` is applied with a resource
compiled to one rule and `B@v1` with another such resource, every outcome of
`GenerateFragments` returns four fragments of which the two rule fragments have
the same id, a lone slash. -/
theorem fragment_ids_collide :
    Sample.pair.GenerateFragments Sample.marshalOk =
        [.returned [some ⟨"/b", ⟨"instance", [0]⟩⟩, some ⟨"/", ⟨"rule", [1, 1]⟩⟩,
            some ⟨"/a", ⟨"instance", [0]⟩⟩, some ⟨"/", ⟨"rule", [1, 1]⟩⟩],
          .returned [some ⟨"/a", ⟨"instance", [0]⟩⟩, some ⟨"/", ⟨"rule", [1, 1]⟩⟩,
            some ⟨"/b", ⟨"instance", [0]⟩⟩, some ⟨"/", ⟨"rule", [1, 1]⟩⟩]] ∧
      ∀ out ∈ Sample.pair.GenerateFragments Sample.marshalOk, ¬ (returnedIds out).Nodup := by
  decide

/-- C7, evaluated where it fails: with an encoder that fails on rules, the only
outcome of `GenerateFragments` on a state that stores a rule is a panic with
the error of the encoder; nothing is returned to the caller. -/
theorem GenerateFragments_panics :
    Sample.one.GenerateFragments Sample.marshalNoRule = [.panicked "cannot encode"] := by
  decide

/-- C9, evaluated where it fails: the set stored in `Sample.one` has two rules
named `a` and `b`; its two instance fragments get the ids `/a` and `/b`, built
with the names, and its two rule fragments both get the id `/`, built without. -/
theorem rule_fragment_id_drops_name :
    Sample.one.fragments.lookup Sample.keyA =
        some ⟨"", Sample.A1, [⟨"a", []⟩, ⟨"b", []⟩], [⟨"a", [1]⟩, ⟨"b", [1]⟩]⟩ ∧
      (Sample.one.GenerateFragments Sample.marshalOk).map returnedIds =
        [["/a", "/b", "/", "/"]] := by
  decide

/-- C11, as the claim states it, fails: from the fresh state an apply returns
true, and a remove of the key just applied returns true, yet the version of the
resulting state is not greater than before: it is still 0. -/
theorem version_does_not_advance :
    (Sample.start.applyProducerService Sample.compile Sample.A1 ["a", "b"]).1 = true ∧
      ¬ (Sample.start.version <
        (Sample.start.applyProducerService Sample.compile Sample.A1 ["a", "b"]).2.version) ∧
      (Sample.one.removeProducerService Sample.A1).1 = true ∧
      ¬ (Sample.one.version < (Sample.one.removeProducerService Sample.A1).2.version) := by
  decide

/-- C11, amended. For every state, `applyProducerService` and
`removeProducerService` leave the bundle version as it was, whether they return
true or false. -/
theorem version_unchanged
    (MixerFragment : PS → U → List distrib.Instance × List distrib.Rule × U)
    (m : Mixer U) (k : resource.VersionedKey) (s : PS) :
    (m.applyProducerService MixerFragment k s).2.version = m.version ∧
      (m.removeProducerService k).2.version = m.version :=
  ⟨applyProducerService_version MixerFragment m k s, removeProducerService_version m k⟩

/-- C14. Removal ignores the version in the key: two keys with the same
resource key give the same result and the same resulting state; and when an
entry is stored under the resource key, a remove whose version differs from the
version of the stored source still returns true and deletes the entry. -/
theorem removeProducerService_ignores_version (m : Mixer U) (k1 k2 : resource.VersionedKey)
    (h : k1.Key = k2.Key) :
    m.removeProducerService k1 = m.removeProducerService k2 ∧
      ∀ f, m.fragments.lookup k1.Key = some f → f.source.Version ≠ k1.Version →
        (m.removeProducerService k1).1 = true ∧
          (m.removeProducerService k1).2.fragments.lookup k1.Key = none := by
  constructor
  · unfold Mixer.removeProducerService
    rw [h]
  · intro f hf _
    have hne : m.fragments.lookup k1.Key ≠ none := by simp [hf]
    rw [Mixer.removeProducerService_of_present m k1 hne]
    exact ⟨rfl, AList.lookup_erase _ _⟩

theorem removeProducerService_ignores_version_witness :
    Sample.A2.Key = Sample.A1.Key ∧
      (Sample.one.removeProducerService Sample.A2 = Sample.one.removeProducerService Sample.A1 ∧
        ∀ f, Sample.one.fragments.lookup Sample.A2.Key = some f →
          f.source.Version ≠ Sample.A2.Version →
            (Sample.one.removeProducerService Sample.A2).1 = true ∧
              (Sample.one.removeProducerService Sample.A2).2.fragments.lookup Sample.A2.Key
                = none) :=
  ⟨rfl, removeProducerService_ignores_version Sample.one Sample.A2 Sample.A1 rfl⟩

/-- C16. At most one fragment set per resource key, with exact entry counts:
after `applyProducerService(k, s)` the map holds exactly one entry under
`k.Key`, and as many entries as before when an entry under `k.Key` existed, one
more otherwise; after `removeProducerService(k)` it holds one entry fewer when
an entry under `k.Key` existed, as many otherwise; and after either call no
resource key has more than one entry. -/
theorem one_entry_per_key
    (MixerFragment : PS → U → List distrib.Instance × List distrib.Rule × U)
    (m : Mixer U) (k : resource.VersionedKey) (s : PS) :
    (m.applyProducerService MixerFragment k s).2.fragments.keys.count k.Key = 1 ∧
      (m.applyProducerService MixerFragment k s).2.fragments.entries.length =
        (if (m.fragments.lookup k.Key).isSome then m.fragments.entries.length
          else m.fragments.entries.length + 1) ∧
      (m.removeProducerService k).2.fragments.entries.length =
        (if (m.fragments.lookup k.Key).isSome then m.fragments.entries.length - 1
          else m.fragments.entries.length) ∧
      (∀ K, (m.applyProducerService MixerFragment k s).2.fragments.keys.count K ≤ 1) ∧
      (∀ K, (m.removeProducerService k).2.fragments.keys.count K ≤ 1) := by
  refine ⟨?_, ?_, ?_, ?_, ?_⟩
  · apply List.count_eq_one_of_mem (AList.keys_nodup _)
    cases h : m.sameSource k with
    | true =>
      obtain ⟨f, hf, _⟩ := (Mixer.sameSource_eq_true_iff m k).1 h
      rw [Mixer.applyProducerService_of_same MixerFragment m k s h, ← AList.mem_keys,
        ← AList.lookup_isSome, hf]
      rfl
    | false =>
      rw [Mixer.applyProducerService_of_not_same MixerFragment m k s h, ← AList.mem_keys]
      exact (AList.mem_insert _).2 (Or.inl rfl)
  · cases h : m.sameSource k with
    | true =>
      obtain ⟨f, hf, _⟩ := (Mixer.sameSource_eq_true_iff m k).1 h
      rw [Mixer.applyProducerService_of_same MixerFragment m k s h]
      simp [hf]
    | false =>
      rw [Mixer.applyProducerService_of_not_same MixerFragment m k s h]
      simp only [AList.insert_entries, List.length_cons, length_kerase_entries]
      by_cases hmem : k.Key ∈ m.fragments
      · have hpos : 0 < m.fragments.entries.length := by
          obtain ⟨b, hb⟩ := List.mem_keys.1 (AList.mem_keys.1 hmem)
          exact List.length_pos_of_mem hb
        have h1 : k.Key ∈ m.fragments.entries.keys := AList.mem_keys.1 hmem
        rw [if_pos h1, if_pos (AList.lookup_isSome.2 hmem)]
        omega
      · have h1 : ¬ k.Key ∈ m.fragments.entries.keys := fun hx => hmem (AList.mem_keys.2 hx)
        have h2 : ¬ (m.fragments.lookup k.Key).isSome = true :=
          fun hx => hmem (AList.lookup_isSome.1 hx)
        rw [if_neg h1, if_neg h2]
  · by_cases hmem : k.Key ∈ m.fragments
    · have hne : m.fragments.lookup k.Key ≠ none := by
        rw [Ne, AList.lookup_eq_none]
        exact fun hx => hx hmem
      have h1 : k.Key ∈ m.fragments.entries.keys := AList.mem_keys.1 hmem
      rw [Mixer.removeProducerService_of_present m k hne, if_pos (AList.lookup_isSome.2 hmem)]
      simp only [AList.erase, length_kerase_entries]
      rw [if_pos h1]
    · have hnone : m.fragments.lookup k.Key = none := AList.lookup_eq_none.2 hmem
      rw [Mixer.removeProducerService_of_absent m k hnone]
      simp [hnone]
  · intro K
    exact List.nodup_iff_count_le_one.1 (AList.keys_nodup _) K
  · intro K
    exact List.nodup_iff_count_le_one.1 (AList.keys_nodup _) K

/-- C17. Frame of apply and remove: both calls leave the destination as it
was, which in every state reached from `newMixerState componentId` is the Mixer
kind with the name `componentId`; and both leave the entry under every resource
key other than `k.Key` as it was, present or absent. -/
theorem apply_remove_frame
    (MixerFragment : PS → U → List distrib.Instance × List distrib.Rule × U)
    (m : Mixer U) (k : resource.VersionedKey) (s : PS)
    (NewUniquifier : U) (componentId : String) (calls : List (Call PS)) :
    (m.applyProducerService MixerFragment k s).2.Destination = m.Destination ∧
      (m.removeProducerService k).2.Destination = m.Destination ∧
      (runCalls MixerFragment (newMixerState NewUniquifier componentId) calls).Destination =
        { Kind := component.MixerKind, Name := componentId } ∧
      (∀ K, K ≠ k.Key →
        (m.applyProducerService MixerFragment k s).2.fragments.lookup K =
          m.fragments.lookup K) ∧
      (∀ K, K ≠ k.Key →
        (m.removeProducerService k).2.fragments.lookup K = m.fragments.lookup K) :=
  ⟨applyProducerService_destination MixerFragment m k s,
    removeProducerService_destination m k,
    runCalls_destination MixerFragment _ calls,
    fun K hK => applyProducerService_lookup_of_ne MixerFragment m k s K hK,
    fun K hK => removeProducerService_lookup_of_ne m k K hK⟩

/-- C18. Store key/source agreement: in every state reached from `newMixerState`
by a finite sequence of calls of the two mutators, a fragment set stored under
the resource key `K` has a source whose resource key is `K`; and on such a state
`applyProducerService(k, s)` returns false exactly when an entry is stored under
`k.Key` whose source has the version of `k`. -/
theorem source_key_agrees
    (MixerFragment : PS → U → List distrib.Instance × List distrib.Rule × U)
    (NewUniquifier : U) (componentId : String) (calls : List (Call PS)) :
    (∀ K f, (runCalls MixerFragment (newMixerState NewUniquifier componentId)
        calls).fragments.lookup K = some f → f.source.Key = K) ∧
      ∀ k s,
        ((runCalls MixerFragment (newMixerState NewUniquifier componentId)
          calls).applyProducerService MixerFragment k s).1 = false ↔
        ∃ f, (runCalls MixerFragment (newMixerState NewUniquifier componentId)
          calls).fragments.lookup k.Key = some f ∧ f.source.Version = k.Version := by
  have hinv := runCalls_source_key MixerFragment NewUniquifier componentId calls
  refine ⟨hinv, ?_⟩
  intro k s
  rw [applyProducerService_fst, Bool.not_eq_false_eq_eq_true, Mixer.sameSource_eq_true_iff]
  constructor
  · rintro ⟨f, hf, hsrc⟩
    exact ⟨f, hf, by rw [hsrc]⟩
  · rintro ⟨f, hf, hv⟩
    refine ⟨f, hf, ?_⟩
    have hk := hinv k.Key f hf
    cases hfs : f.source with
    | mk fk fv =>
      cases k with
      | mk kk kv =>
        rw [hfs] at hk hv
        simp only at hk hv
        rw [hk, hv]

/-- C19. Change detection looks at the version only: when the entry stored
under `k.Key` has the source `k`, `applyProducerService(k, s2)` returns false for
every resource `s2` and every compiler, and the state, with the stored instances
and rules, is as before; in a state reached from `newMixerState` the same holds
when any stored entry has the source `k`. -/
theorem applyProducerService_same_version
    (MixerFragment : PS → U → List distrib.Instance × List distrib.Rule × U)
    (m : Mixer U) (k : resource.VersionedKey) (f : mixerFragmentSet) (s2 : PS)
    (NewUniquifier : U) (componentId : String) (calls : List (Call PS))
    (hf : m.fragments.lookup k.Key = some f) (hsrc : f.source = k) :
    ((m.applyProducerService MixerFragment k s2).1 = false ∧
      (m.applyProducerService MixerFragment k s2).2 = m ∧
      ∃ g, (m.applyProducerService MixerFragment k s2).2.fragments.lookup k.Key = some g ∧
        g.instances = f.instances ∧ g.rules = f.rules) ∧
      ∀ K g, (runCalls MixerFragment (newMixerState NewUniquifier componentId)
          calls).fragments.lookup K = some g → g.source = k →
        (runCalls MixerFragment (newMixerState NewUniquifier componentId)
          calls).applyProducerService MixerFragment k s2 =
            (false, runCalls MixerFragment (newMixerState NewUniquifier componentId) calls) := by
  constructor
  · have hs : m.sameSource k = true := (Mixer.sameSource_eq_true_iff m k).2 ⟨f, hf, hsrc⟩
    rw [Mixer.applyProducerService_of_same MixerFragment m k s2 hs]
    exact ⟨rfl, rfl, f, hf, rfl, rfl⟩
  · intro K g hg hgk
    have hK := runCalls_source_key MixerFragment NewUniquifier componentId calls K g hg
    rw [hgk] at hK
    rw [← hK] at hg
    exact Mixer.applyProducerService_of_same MixerFragment _ k s2
      ((Mixer.sameSource_eq_true_iff _ k).2 ⟨g, hg, hgk⟩)

theorem applyProducerService_same_version_witness :
    (Sample.one.fragments.lookup Sample.A1.Key =
        some ⟨"", Sample.A1, [⟨"a", []⟩, ⟨"b", []⟩], [⟨"a", [1]⟩, ⟨"b", [1]⟩]⟩ ∧
      (⟨"", Sample.A1, [⟨"a", []⟩, ⟨"b", []⟩], [⟨"a", [1]⟩, ⟨"b", [1]⟩]⟩ :
        mixerFragmentSet).source = Sample.A1) ∧
    (((Sample.one.applyProducerService Sample.compile Sample.A1 ["z"]).1 = false ∧
      (Sample.one.applyProducerService Sample.compile Sample.A1 ["z"]).2 = Sample.one ∧
      ∃ g, (Sample.one.applyProducerService Sample.compile Sample.A1
          ["z"]).2.fragments.lookup Sample.A1.Key = some g ∧
        g.instances = [⟨"a", []⟩, ⟨"b", []⟩] ∧ g.rules = [⟨"a", [1]⟩, ⟨"b", [1]⟩]) ∧
      ∀ K g, (runCalls Sample.compile Sample.start
          [.apply Sample.A1 ["a", "b"]]).fragments.lookup K = some g → g.source = Sample.A1 →
        (runCalls Sample.compile Sample.start
          [.apply Sample.A1 ["a", "b"]]).applyProducerService Sample.compile Sample.A1 ["z"] =
            (false, runCalls Sample.compile Sample.start [.apply Sample.A1 ["a", "b"]])) :=
  ⟨⟨by decide, rfl⟩,
    applyProducerService_same_version Sample.compile Sample.one Sample.A1
      ⟨"", Sample.A1, [⟨"a", []⟩, ⟨"b", []⟩], [⟨"a", [1]⟩, ⟨"b", [1]⟩]⟩ ["z"]
      0 "mixer-0" [.apply Sample.A1 ["a", "b"]] (by decide) rfl⟩

/-- C13. The example scenario: from `newMixerState`, applying `A@v1` returns
true and the map has one entry; applying `A@v1` again returns false; applying
`A@v2`, with `v2` different from `v1`, returns true and the map still has one
entry; removing `A@v2` returns true and the map is empty; on that empty map, as
on a fresh state, `GenerateFragments` returns the empty list and
`GenerateManifest` a manifest with no fragment id. -/
theorem example_scenario
    (MixerFragment : PS → U → List distrib.Instance × List distrib.Rule × U)
    (Marshal : proto.Message → Except E Bytes)
    (NewUniquifier : U) (componentId : String) (A : resource.Key)
    (v1 v2 : resource.Version) (R1 R2 : PS) (h : v1 ≠ v2) :
    ((newMixerState NewUniquifier componentId).applyProducerService MixerFragment
        ⟨A, v1⟩ R1).1 = true ∧
      (runCalls MixerFragment (newMixerState NewUniquifier componentId)
        [.apply ⟨A, v1⟩ R1]).fragments.entries.length = 1 ∧
      ((runCalls MixerFragment (newMixerState NewUniquifier componentId)
        [.apply ⟨A, v1⟩ R1]).applyProducerService MixerFragment ⟨A, v1⟩ R1).1 = false ∧
      ((runCalls MixerFragment (newMixerState NewUniquifier componentId)
        [.apply ⟨A, v1⟩ R1, .apply ⟨A, v1⟩ R1]).applyProducerService MixerFragment
          ⟨A, v2⟩ R2).1 = true ∧
      (runCalls MixerFragment (newMixerState NewUniquifier componentId)
        [.apply ⟨A, v1⟩ R1, .apply ⟨A, v1⟩ R1,
          .apply ⟨A, v2⟩ R2]).fragments.entries.length = 1 ∧
      ((runCalls MixerFragment (newMixerState NewUniquifier componentId)
        [.apply ⟨A, v1⟩ R1, .apply ⟨A, v1⟩ R1,
          .apply ⟨A, v2⟩ R2]).removeProducerService ⟨A, v2⟩).1 = true ∧
      (runCalls MixerFragment (newMixerState NewUniquifier componentId)
        [.apply ⟨A, v1⟩ R1, .apply ⟨A, v1⟩ R1, .apply ⟨A, v2⟩ R2,
          .remove ⟨A, v2⟩]).fragments.entries = [] ∧
      (runCalls MixerFragment (newMixerState NewUniquifier componentId)
        [.apply ⟨A, v1⟩ R1, .apply ⟨A, v1⟩ R1, .apply ⟨A, v2⟩ R2,
          .remove ⟨A, v2⟩]).GenerateFragments Marshal = [.returned []] ∧
      (runCalls MixerFragment (newMixerState NewUniquifier componentId)
        [.apply ⟨A, v1⟩ R1, .apply ⟨A, v1⟩ R1, .apply ⟨A, v2⟩ R2,
          .remove ⟨A, v2⟩]).GenerateManifest =
        [{ Id := "TODO", ComponentType := component.MixerKind, ComponentId := componentId,
           FragmentIds := [] }] ∧
      (newMixerState NewUniquifier componentId).GenerateFragments Marshal = [.returned []] ∧
      (newMixerState NewUniquifier componentId).GenerateManifest =
        [{ Id := "TODO", ComponentType := component.MixerKind, ComponentId := componentId,
           FragmentIds := [] }] := by
  have hv : ¬ ((⟨A, v1⟩ : resource.VersionedKey) = ⟨A, v2⟩) := by
    intro hx
    injection hx with _ hx2
    exact h hx2
  have hnil : ∀ m : Mixer U, m.fragments.entries = [] →
      m.GenerateFragments Marshal = [.returned []] ∧
        m.GenerateManifest =
          [(⟨"TODO", component.MixerKind, m.destination.Name, []⟩ : distrib.Manifest)] := by
    intro m hm
    simp [Mixer.GenerateFragments, Mixer.GenerateManifest, Mixer.rangeOrders, hm,
      fragmentsLoop, manifestLoop]
  have h0 : (newMixerState NewUniquifier componentId).sameSource ⟨A, v1⟩ = false := by
    simp [Mixer.sameSource, newMixerState]
  have e1 := Mixer.applyProducerService_of_not_same MixerFragment _ ⟨A, v1⟩ R1 h0
  obtain ⟨M1, f1, hM1, hent1, hsrc1, hdest1⟩ : ∃ (M1 : Mixer U) (f1 : mixerFragmentSet),
      (newMixerState NewUniquifier componentId).applyProducerService MixerFragment
        ⟨A, v1⟩ R1 = (true, M1) ∧ M1.fragments.entries = [⟨A, f1⟩] ∧
        f1.source = ⟨A, v1⟩ ∧ M1.destination.Name = componentId :=
    ⟨_, ⟨"", ⟨A, v1⟩, (MixerFragment R1 NewUniquifier).1, (MixerFragment R1 NewUniquifier).2.1⟩,
      e1, by simp [newMixerState], rfl, rfl⟩
  have hl1 : M1.fragments.lookup A = some f1 := by
    simp [AList.lookup, hent1]
  have hs1 : M1.sameSource ⟨A, v1⟩ = true :=
    (Mixer.sameSource_eq_true_iff M1 ⟨A, v1⟩).2 ⟨f1, hl1, hsrc1⟩
  have e2 := Mixer.applyProducerService_of_same MixerFragment M1 ⟨A, v1⟩ R1 hs1
  have hs2 : M1.sameSource ⟨A, v2⟩ = false := by
    rw [Bool.eq_false_iff]
    intro ht
    obtain ⟨f, hf, hsrc⟩ := (Mixer.sameSource_eq_true_iff M1 ⟨A, v2⟩).1 ht
    have hff : f1 = f := by simpa [hl1] using hf
    rw [← hff, hsrc1] at hsrc
    exact hv hsrc
  have e3 := Mixer.applyProducerService_of_not_same MixerFragment M1 ⟨A, v2⟩ R2 hs2
  obtain ⟨M3, f3, hM3, hent3, hdest3⟩ : ∃ (M3 : Mixer U) (f3 : mixerFragmentSet),
      M1.applyProducerService MixerFragment ⟨A, v2⟩ R2 = (true, M3) ∧
        M3.fragments.entries = [⟨A, f3⟩] ∧ M3.destination.Name = componentId :=
    ⟨_, ⟨"", ⟨A, v2⟩, (MixerFragment R2 M1.u).1, (MixerFragment R2 M1.u).2.1⟩,
      e3, by simp [hent1], hdest1⟩
  have hl3 : M3.fragments.lookup A ≠ none := by
    simp [AList.lookup, hent3]
  have e4 := Mixer.removeProducerService_of_present M3 ⟨A, v2⟩ hl3
  have hent4 : (M3.removeProducerService ⟨A, v2⟩).2.fragments.entries = [] := by
    rw [e4]
    simp [AList.erase, hent3]
  have hdest4 : (M3.removeProducerService ⟨A, v2⟩).2.destination.Name = componentId := by
    rw [removeProducerService_destination, hdest3]
  have hfin := hnil _ hent4
  rw [hdest4] at hfin
  have hfresh := hnil (newMixerState NewUniquifier componentId) (by simp [newMixerState])
  simp only [runCalls, List.foldl, Call.run, hM1, e2, hM3]
  refine ⟨trivial, by rw [hent1]; rfl, trivial, trivial, by rw [hent3]; rfl, ?_, hent4, hfin.1,
    hfin.2, hfresh.1, hfresh.2⟩
  rw [e4]

theorem example_scenario_witness :
    ("v1" : resource.Version) ≠ "v2" ∧
    ((Sample.start.applyProducerService Sample.compile
        Sample.A1 ["a", "b"]).1 = true ∧
      (runCalls Sample.compile Sample.start
        [.apply Sample.A1 ["a", "b"]]).fragments.entries.length = 1 ∧
      ((runCalls Sample.compile Sample.start
        [.apply Sample.A1 ["a", "b"]]).applyProducerService
          Sample.compile Sample.A1 ["a", "b"]).1 = false ∧
      ((runCalls Sample.compile Sample.start
        [.apply Sample.A1 ["a", "b"], .apply Sample.A1 ["a", "b"]]).applyProducerService
          Sample.compile Sample.A2 ["c"]).1 = true ∧
      (runCalls Sample.compile Sample.start
        [.apply Sample.A1 ["a", "b"], .apply Sample.A1 ["a", "b"],
          .apply Sample.A2 ["c"]]).fragments.entries.length = 1 ∧
      ((runCalls Sample.compile Sample.start
        [.apply Sample.A1 ["a", "b"], .apply Sample.A1 ["a", "b"],
          .apply Sample.A2 ["c"]]).removeProducerService Sample.A2).1 = true ∧
      (runCalls Sample.compile Sample.start
        [.apply Sample.A1 ["a", "b"], .apply Sample.A1 ["a", "b"], .apply Sample.A2 ["c"],
          .remove Sample.A2]).fragments.entries = [] ∧
      (runCalls Sample.compile Sample.start
        [.apply Sample.A1 ["a", "b"], .apply Sample.A1 ["a", "b"], .apply Sample.A2 ["c"],
          .remove Sample.A2]).GenerateFragments Sample.marshalOk = [.returned []] ∧
      (runCalls Sample.compile Sample.start
        [.apply Sample.A1 ["a", "b"], .apply Sample.A1 ["a", "b"], .apply Sample.A2 ["c"],
          .remove Sample.A2]).GenerateManifest =
        [{ Id := "TODO", ComponentType := component.MixerKind, ComponentId := "mixer-0",
           FragmentIds := [] }] ∧
      Sample.start.GenerateFragments Sample.marshalOk = [.returned []] ∧
      Sample.start.GenerateManifest =
        [{ Id := "TODO", ComponentType := component.MixerKind, ComponentId := "mixer-0",
           FragmentIds := [] }]) :=
  ⟨by decide,
    example_scenario Sample.compile Sample.marshalOk 0 "mixer-0" Sample.keyA "v1" "v2"
      ["a", "b"] ["c"] (by decide)⟩

/-- C12. Manifest content: in every state reached from
`newMixerState componentId` by a finite sequence of calls of the two mutators,
`GenerateManifest` has a result; each result has the Mixer kind as component
type, `componentId` as component id, and as fragment ids the ids of the stored
fragment sets, one per stored set, in some order; and two results have the same
id, component type and component id and the same fragment ids up to order. -/
theorem GenerateManifest_content
    (MixerFragment : PS → U → List distrib.Instance × List distrib.Rule × U)
    (NewUniquifier : U) (componentId : String) (calls : List (Call PS)) :
    (runCalls MixerFragment (newMixerState NewUniquifier componentId)
        calls).GenerateManifest ≠ [] ∧
      (∀ man ∈ (runCalls MixerFragment (newMixerState NewUniquifier componentId)
          calls).GenerateManifest,
        man.ComponentType = component.MixerKind ∧
        man.ComponentId = componentId ∧
        man.FragmentIds.length =
          (runCalls MixerFragment (newMixerState NewUniquifier componentId)
            calls).fragments.entries.length ∧
        man.FragmentIds.Perm
          ((runCalls MixerFragment (newMixerState NewUniquifier componentId)
            calls).fragments.entries.map fun e => e.2.id)) ∧
      (∀ man1 ∈ (runCalls MixerFragment (newMixerState NewUniquifier componentId)
          calls).GenerateManifest,
        ∀ man2 ∈ (runCalls MixerFragment (newMixerState NewUniquifier componentId)
            calls).GenerateManifest,
          man1.Id = man2.Id ∧ man1.ComponentType = man2.ComponentType ∧
            man1.ComponentId = man2.ComponentId ∧
            man1.FragmentIds.Perm man2.FragmentIds ∧
            ∀ id, id ∈ man1.FragmentIds ↔ id ∈ man2.FragmentIds) := by
  have hdest := runCalls_destination MixerFragment
    (newMixerState NewUniquifier componentId) calls
  refine ⟨?_, ?_, ?_⟩
  · simpa [Mixer.GenerateManifest] using rangeOrders_ne_nil _
  · intro man hman
    obtain ⟨ord, hperm, rfl⟩ := mem_GenerateManifest _ man hman
    refine ⟨rfl, ?_, ?_, hperm.map _⟩
    · simp only [hdest]
      rfl
    · simp only [List.length_map]
      exact hperm.length_eq
  · intro man1 h1 man2 h2
    obtain ⟨ord1, hperm1, rfl⟩ := mem_GenerateManifest _ man1 h1
    obtain ⟨ord2, hperm2, rfl⟩ := mem_GenerateManifest _ man2 h2
    have hp : (ord1.map fun e => e.2.id).Perm (ord2.map fun e => e.2.id) :=
      (hperm1.trans hperm2.symm).map _
    exact ⟨rfl, rfl, rfl, hp, fun id => hp.mem_iff⟩

theorem GenerateManifest_content_witness :
    (runCalls Sample.compile Sample.start
        [.apply Sample.A1 ["a"], .apply Sample.B1 ["b"], .remove Sample.A2]).GenerateManifest ≠ [] ∧
      (∀ man ∈ (runCalls Sample.compile Sample.start
          [.apply Sample.A1 ["a"], .apply Sample.B1 ["b"], .remove Sample.A2]).GenerateManifest,
        man.ComponentType = component.MixerKind ∧
        man.ComponentId = "mixer-0" ∧
        man.FragmentIds.length =
          (runCalls Sample.compile Sample.start
            [.apply Sample.A1 ["a"], .apply Sample.B1 ["b"], .remove Sample.A2]).fragments.entries.length ∧
        man.FragmentIds.Perm
          ((runCalls Sample.compile Sample.start
            [.apply Sample.A1 ["a"], .apply Sample.B1 ["b"], .remove Sample.A2]).fragments.entries.map fun e => e.2.id)) ∧
      (∀ man1 ∈ (runCalls Sample.compile Sample.start
          [.apply Sample.A1 ["a"], .apply Sample.B1 ["b"], .remove Sample.A2]).GenerateManifest,
        ∀ man2 ∈ (runCalls Sample.compile Sample.start
            [.apply Sample.A1 ["a"], .apply Sample.B1 ["b"], .remove Sample.A2]).GenerateManifest,
          man1.Id = man2.Id ∧ man1.ComponentType = man2.ComponentType ∧
            man1.ComponentId = man2.ComponentId ∧
            man1.FragmentIds.Perm man2.FragmentIds ∧
            ∀ id, id ∈ man1.FragmentIds ↔ id ∈ man2.FragmentIds) :=
  GenerateManifest_content Sample.compile 0 "mixer-0"
    [.apply Sample.A1 ["a"], .apply Sample.B1 ["b"], .remove Sample.A2]

/-- C15, evaluated where it fails: after `A@v1` and `B@v1` are applied, the
fragment sets stored under the two different resource keys both have the empty
string as id, and every manifest lists the empty string twice. -/
theorem fragment_set_ids_coincide :
    Sample.pair = runCalls Sample.compile (newMixerState 0 "mixer-0")
        [.apply Sample.A1 ["a"], .apply Sample.B1 ["b"]] ∧
      (Sample.pair.fragments.lookup Sample.keyA).map (fun f => f.id) = some "" ∧
      (Sample.pair.fragments.lookup Sample.keyB).map (fun f => f.id) = some "" ∧
      Sample.pair.GenerateManifest =
        [⟨"TODO", "mixer", "mixer-0", ["", ""]⟩, ⟨"TODO", "mixer", "mixer-0", ["", ""]⟩] ∧
      ∀ man ∈ Sample.pair.GenerateManifest, ¬ man.FragmentIds.Nodup :=
  ⟨rfl, by decide, by decide, by decide, by decide⟩

end Claims
